import Mathlib

/-!
Verification development for the doptions command-line parsing library.

The definitions below are shallow embeddings of the C++ sources:
  * `stoll` / `stoull`       — model of `std::stoll` / `std::stoull` (base 10)
  * `fromStrSigned` / `fromStrUnsigned` / `fromStrBool`
                             — model of the `doptions::fromStr<T>` converters
                               in include/doptions/option.hpp
  * `validChar`, `validateName`, `validateSize`
                             — model of `NameValidations` in validations.hpp
  * `createCommand`          — model of `Command::createCommand`
  * `trim`, `splitAtComma`, `optionValidateName`, `createOption`
                             — model of `StringUtils::trim` and
                               `Option<V>::validateName` / `createOption`
  * `parseCommand` / `parse` — model of `Command::parseCommand` and
                               `Application::parse` / `processOption` /
                               `processCommand`

Machine integers are modelled as `Nat`/`Int` with explicit range checks,
matching the explicit `min`/`max` comparisons of the source.  Exceptions are
modelled with `Except` / explicit error components.  Writes through the
type-erased target pointers are modelled as an explicit event list: the C++
code mutates a bound variable exactly when `parseValue` runs, so "target is
unchanged" corresponds to "no write event for that option index".
-/

deriving instance DecidableEq for Except

namespace DOpt

/-! ### Character classes (ASCII, "C" locale, as used by the source) -/

/-- `std::isspace` in the default locale: space, \t, \n, vertical tab,
form feed, \r. -/
def isSpaceC (c : Char) : Bool :=
  c.toNat = 32 || c.toNat = 9 || c.toNat = 10 || c.toNat = 11 ||
  c.toNat = 12 || c.toNat = 13

/-- ASCII decimal digit, as consumed by `strtoll`/`strtoull`. -/
def isDigitC (c : Char) : Bool := 48 ≤ c.toNat && c.toNat ≤ 57

/-- Numeric value of a digit character. -/
def digitVal (c : Char) : Nat := c.toNat - 48

/-- `std::isalpha` (ASCII letters). -/
def isAlphaC (c : Char) : Bool :=
  (65 ≤ c.toNat && c.toNat ≤ 90) || (97 ≤ c.toNat && c.toNat ≤ 122)

/-- `std::isalnum` (ASCII letters and digits). -/
def isAlnumC (c : Char) : Bool := isAlphaC c || isDigitC c

/-! ### `std::stoll` / `std::stoull` (base 10) -/

inductive StoErr where
  /-- `std::invalid_argument`: no conversion could be performed. -/
  | invalidArgument
  /-- `std::out_of_range`: the converted value falls out of range. -/
  | outOfRange
deriving DecidableEq, Repr

/-- Optional single leading sign, as consumed by `strtol`-family functions:
returns (isNegative, remaining characters). -/
def splitSign (cs : List Char) : Bool × List Char :=
  match cs with
  | [] => (false, [])
  | c :: r =>
    if c.toNat = 45 then (true, r)        -- minus sign
    else if c.toNat = 43 then (false, r)  -- plus sign
    else (false, c :: r)

def int64Min : Int := -9223372036854775808   -- -2^63
def int64Max : Int := 9223372036854775807    -- 2^63 - 1
def uint64Max : Nat := 18446744073709551615  -- 2^64 - 1

/-- Model of `std::stoll(str)` (base 10): skip whitespace, optional sign,
longest run of decimal digits; `invalid_argument` if there are no digits,
`out_of_range` if the value does not fit in a 64-bit signed integer. -/
def stoll (s : String) : Except StoErr Int :=
  let cs := s.data.dropWhile isSpaceC
  let sp := splitSign cs
  let ds := sp.2.takeWhile isDigitC
  if ds = [] then .error .invalidArgument
  else
    let m : Nat := ds.foldl (fun a c => 10 * a + digitVal c) 0
    let v : Int := if sp.1 then -(m : Int) else (m : Int)
    if v < int64Min ∨ v > int64Max then .error .outOfRange else .ok v

/-- Model of `std::stoull(str)` (base 10).  Like `strtoull`, a leading minus
sign is accepted and the value is negated modulo 2^64; `out_of_range` is
raised only when the digit magnitude exceeds the 64-bit unsigned maximum. -/
def stoull (s : String) : Except StoErr Nat :=
  let cs := s.data.dropWhile isSpaceC
  let sp := splitSign cs
  let ds := sp.2.takeWhile isDigitC
  if ds = [] then .error .invalidArgument
  else
    let m : Nat := ds.foldl (fun a c => 10 * a + digitVal c) 0
    if m > uint64Max then .error .outOfRange
    else .ok (if sp.1 then (2 ^ 64 - m % 2 ^ 64) % 2 ^ 64 else m)

/-! ### `doptions::fromStr<T>` for the fixed-width integer types -/

/-- Payload of `ParseException::outOfRange<T>`: the numbers rendered into the
message ("Value out of range: val (min - max)").  For the signed overload the
`val` parameter has C++ type `uint64_t`, so the call site's `long long`
argument is reduced modulo 2^64 before being rendered. -/
structure RangePayload where
  val : Int
  min : Int
  max : Int
deriving DecidableEq, Repr

inductive ConvErr where
  /-- error propagated unchanged from `std::stoll` / `std::stoull` -/
  | sto (e : StoErr)
  /-- `ParseException::outOfRange<T>` -/
  | valueOutOfRange (p : RangePayload)
deriving DecidableEq, Repr

/-- Model of `fromStr<T>` for `T` a signed fixed-width integer type with
limits `[tmin, tmax]`: `std::stoll`, then the explicit range check
`value < min || value > max`, raising `outOfRange<T>(value)` — whose
parameter is `uint64_t`, hence `value` is taken modulo 2^64. -/
def fromStrSigned (tmin tmax : Int) (s : String) : Except ConvErr Int :=
  match stoll s with
  | .error e => .error (.sto e)
  | .ok v =>
    if v < tmin ∨ v > tmax then
      .error (.valueOutOfRange ⟨Int.emod v (2 ^ 64), tmin, tmax⟩)
    else .ok v

/-- Model of `fromStr<T>` for `T` an unsigned fixed-width integer type with
limits `[0, tmax]`: `std::stoull`, then `value < min || value > max` with
`min = 0` (never true for an unsigned value). -/
def fromStrUnsigned (tmax : Nat) (s : String) : Except ConvErr Nat :=
  match stoull s with
  | .error e => .error (.sto e)
  | .ok v =>
    if (v : Int) < 0 ∨ v > tmax then
      .error (.valueOutOfRange ⟨(v : Int), 0, (tmax : Int)⟩)
    else .ok v

def fromStrInt16 : String → Except ConvErr Int := fromStrSigned (-32768) 32767

def fromStrUInt8 : String → Except ConvErr Nat := fromStrUnsigned 255

/-- Model of `fromStr<bool>`: `str == "true"`; total, never raises. -/
def fromStrBool (s : String) : Bool := s = "true"

/-! ### Canonical decimal literals and the parse round trip -/

/-- The decimal digit characters. -/
def charOfDigit : Nat → Char
  | 0 => '0' | 1 => '1' | 2 => '2' | 3 => '3' | 4 => '4'
  | 5 => '5' | 6 => '6' | 7 => '7' | 8 => '8' | _ => '9'

/-- Canonical decimal rendering of a natural number (big-endian digits). -/
def natLitChars (n : Nat) : List Char :=
  if n = 0 then ['0'] else (Nat.digits 10 n).reverse.map charOfDigit

/-- Canonical decimal literal of an integer, e.g. `intLit (-42) = "-42"`. -/
def intLit (n : Int) : String :=
  if n < 0 then ⟨'-' :: natLitChars n.natAbs⟩ else ⟨natLitChars n.toNat⟩

/-! ### NameValidations (validations.hpp) -/

/-- `NameValidationConfig` with its default member values
(`defaultShortLimit = 3`, `defaultLongLimit = 100`). -/
structure NameValidationConfig where
  shortNameLimit : Nat := 3
  longNameLimit : Nat := 100
  nameContainsDots : Bool := false
  nameContainsDashes : Bool := true
  nameContainsUnderscores : Bool := true

/-- The default-initialized process-wide config `NameValidations::options`. -/
def defaultConfig : NameValidationConfig := {}

/-- The `BuildException` kinds, with the data rendered into each message. -/
inductive BuildErr where
  | emptyName (label : String)
  | invalidName (name : String)
  | invalidSize (name : String) (min max : Nat) (isShort : Bool)
deriving DecidableEq, Repr

/-- `NameValidations::validChar(ch, first)`. -/
def validChar (cfg : NameValidationConfig) (ch : Char) (first : Bool) :
    Bool :=
  if first then isAlphaC ch
  else if isAlnumC ch then true
  else if cfg.nameContainsDashes && ch.toNat = 45 then true       -- dash
  else if cfg.nameContainsDots && ch.toNat = 46 then true         -- dot
  else if cfg.nameContainsUnderscores && ch.toNat = 95 then true  -- underscore
  else false

/-- The character loop of `NameValidations::validateName`: the first
character must satisfy `validChar(l, true)` (alphabetic), every character
must satisfy `validChar(l)` (alphanumeric or an enabled separator). -/
def validateNameLoop (cfg : NameValidationConfig) (orig : String) :
    List Char → Bool → Except BuildErr Unit
  | [], _ => .ok ()
  | c :: rest, first =>
    if first && !(validChar cfg c true) then .error (.invalidName orig)
    else if !(validChar cfg c false) then .error (.invalidName orig)
    else validateNameLoop cfg orig rest false

/-- `NameValidations::validateName` on a character list (`string_view`). -/
def validateNameL (cfg : NameValidationConfig) (cs : List Char) :
    Except BuildErr Unit :=
  if cs = [] then .error (.emptyName "Argument name")
  else validateNameLoop cfg ⟨cs⟩ cs true

/-- `NameValidations::validateName`. -/
def validateName (cfg : NameValidationConfig) (name : String) :
    Except BuildErr Unit :=
  validateNameL cfg name.data

/-- `NameValidations::validateSize` on a character list. -/
def validateSizeL (cfg : NameValidationConfig) (cs : List Char)
    (isShort : Bool) : Except BuildErr Unit :=
  let size := cs.length
  if isShort = true ∧ (cfg.shortNameLimit < size ∨ size = 0) then
    .error (.invalidSize ⟨cs⟩ 0 cfg.shortNameLimit true)
  else if isShort = false ∧
      (size ≤ cfg.shortNameLimit ∨ size = 0 ∨ cfg.longNameLimit < size) then
    .error (.invalidSize ⟨cs⟩ cfg.shortNameLimit cfg.longNameLimit false)
  else .ok ()

/-- `NameValidations::validateSize`. -/
def validateSize (cfg : NameValidationConfig) (name : String)
    (isShort : Bool) : Except BuildErr Unit :=
  validateSizeL cfg name.data isShort

/-! ### Option and Command construction -/

/-- The identity and converter behaviour of a constructed `Option<V>`:
canonical prefixed names (empty string when that half is absent),
`isBool` marks `V = bool` (the only case with `needsValue() == false`),
and `convOk tok` abstracts whether `fromStr<V>(tok)` returns normally
(for `V = bool` it always does). -/
structure OptDesc where
  shortName : String
  longName : String
  isBool : Bool
  convOk : String → Bool

/-- A `Command`: its validated name and its options in registration order. -/
structure CmdModel where
  name : String
  opts : List OptDesc

/-- `Command::createCommand`: `validateName(name)` then
`validateSize(name, false)`; the new command has no options yet. -/
def createCommand (cfg : NameValidationConfig) (name : String) :
    Except BuildErr CmdModel :=
  match validateName cfg name with
  | .error e => .error e
  | .ok _ =>
    match validateSize cfg name false with
    | .error e => .error e
    | .ok _ => .ok ⟨name, []⟩

/-- `StringUtils::trim`: drop leading whitespace; if anything remains, also
drop trailing whitespace. -/
def trim (cs : List Char) : List Char :=
  ((cs.dropWhile isSpaceC).reverse.dropWhile isSpaceC).reverse

/-- `data.find(',')` plus the two `substr` calls of `Option::validateName`:
split at the first comma, if any. -/
def splitAtComma : List Char → Option (List Char × List Char)
  | [] => none
  | c :: rest =>
    if c.toNat = 44 then some ([], rest)   -- comma
    else
      match splitAtComma rest with
      | none => none
      | some (a, b) => some (c :: a, b)

/-- `Option<V>::validateName(name)`: resolve a spec string into its
(short, long) halves, each without its dash prefix ( `[]` = absent half). -/
def optionValidateName (cfg : NameValidationConfig) (name : String) :
    Except BuildErr (List Char × List Char) :=
  if name.data = [] then .error (.emptyName "Argument Name")
  else
    let data := trim name.data
    if data = [] then .error (.emptyName "Argument Name")
    else
      match splitAtComma data with
      | some (sRaw, lRaw) =>
        let s0 := trim sRaw
        let l0 := trim lRaw
        if s0 = [] then .error (.emptyName "Short Name")
        else if l0 = [] then .error (.emptyName "Long name")
        else
          let s := if s0.head? = some '-' then s0.tail else s0
          let l := if l0.take 2 = ['-', '-'] then l0.drop 2 else l0
          match validateNameL cfg s with
          | .error e => .error e
          | .ok _ =>
          match validateNameL cfg l with
          | .error e => .error e
          | .ok _ =>
          match validateSizeL cfg s true with
          | .error e => .error e
          | .ok _ =>
          match validateSizeL cfg l false with
          | .error e => .error e
          | .ok _ => .ok (s, l)
      | none =>
        let p : List Char × Bool :=
          if data.take 2 = ['-', '-'] ∧ 3 ≤ data.length then
            (data.drop 2, false)
          else if data.head? = some '-' ∧ 2 ≤ data.length then
            (data.drop 1, true)
          else (data, decide (data.length ≤ 3))
        let d := trim p.1
        match validateSizeL cfg d p.2 with
        | .error e => .error e
        | .ok _ =>
        match validateNameL cfg d with
        | .error e => .error e
        | .ok _ => if p.2 then .ok (d, []) else .ok ([], d)

/-- `Option<V>::createOption`, restricted to the identity it constructs:
the canonical short and long names, prefixed with "-" / "--" when present
(empty string when absent). -/
def createOption (cfg : NameValidationConfig) (spec : String) :
    Except BuildErr (String × String) :=
  match optionValidateName cfg spec with
  | .error e => .error e
  | .ok (s, l) =>
    .ok (if s = [] then "" else ⟨'-' :: s⟩,
         if l = [] then "" else ⟨'-' :: '-' :: l⟩)

/-! ### Parsing (`Command::parseCommand`, `Application::parse`) -/

/-- The `ParseException` kinds raised by the token walks, with the data
rendered into each message; `convFail` stands for an exception propagated
unchanged out of a `parseValue` conversion. -/
inductive PErr where
  | unknownArg (tok : String)
  | insufficientValues (tok : String)
  | multiArg (names : String)
  | convFail
deriving DecidableEq, Repr

/-- A default-constructed option placeholder (never reached by the walks:
every resolved index is in range). -/
def defOpt : OptDesc := ⟨"", "", false, fun _ => false⟩

/-- `options_.at(k)` (all indices produced by the name maps are in range). -/
def optAt : List OptDesc → Nat → OptDesc
  | [], _ => defOpt
  | o :: _, 0 => o
  | _ :: r, k + 1 => optAt r k

/-- `commands_.at(k)` (all indices produced by the command map are in
range). -/
def cmdAt : List CmdModel → Nat → CmdModel
  | [], _ => ⟨"", []⟩
  | c :: _, 0 => c
  | _ :: r, k + 1 => cmdAt r k

/-- Helper for `lookupName`: resolve `tok` in the suffix of the option
list starting at absolute index `i`, preferring the later (overwriting)
insertion. -/
def lookupFrom (tok : String) : List OptDesc → Nat → Option Nat
  | [], _ => none
  | o :: rest, i =>
    let tail := lookupFrom tok rest (i + 1)
    if tail.isSome then tail
    else if (o.shortName ≠ "" ∧ o.shortName = tok) ∨
            (o.longName ≠ "" ∧ o.longName = tok) then some i
    else none

/-- Lookup in the name→index `std::map` built by `Command::parseCommand` /
`Application::buildReconMaps`: both nonempty names of each option are
inserted in index order with `map[name] = idx`, so for a repeated name the
last insertion (largest index) wins. -/
def lookupName (opts : List OptDesc) (tok : String) : Option Nat :=
  lookupFrom tok opts 0

/-- Helper for `lookupCmd`, analogous to `lookupFrom`. -/
def lookupCmdFrom (tok : String) : List CmdModel → Nat → Option Nat
  | [], _ => none
  | c :: rest, i =>
    let tail := lookupCmdFrom tok rest (i + 1)
    if tail.isSome then tail
    else if c.name = tok then some i else none

/-- Lookup in the command-name map of `Application::buildReconMaps`. -/
def lookupCmd (cmds : List CmdModel) (tok : String) : Option Nat :=
  lookupCmdFrom tok cmds 0

/-- `std::string` `operator<`: lexicographic comparison by character. -/
def ltCharList : List Char → List Char → Bool
  | [], [] => false
  | [], _ :: _ => true
  | _ :: _, [] => false
  | a :: as, b :: bs =>
    if a.toNat < b.toNat then true
    else if b.toNat < a.toNat then false
    else ltCharList as bs

def ltStr (a b : String) : Bool := ltCharList a.data b.data

/-- Insertion sort step on strings (for the `std::map` key order). -/
def insortStr (s : String) : List String → List String
  | [] => [s]
  | t :: r => if ltStr s t then s :: t :: r else t :: insortStr s r

/-- Sort strings ascending, the iteration order of `std::map` keys. -/
def sortStr (l : List String) : List String := l.foldr insortStr []

/-- Collapse adjacent duplicates (map keys are unique). -/
def dedupAdj : List String → List String
  | [] => []
  | [a] => [a]
  | a :: b :: r => if a = b then dedupAdj (b :: r) else a :: dedupAdj (b :: r)

/-- The key set of the name→index map, in `std::map` iteration order. -/
def mapKeys (opts : List OptDesc) : List String :=
  dedupAdj (sortStr (opts.foldr (fun o acc =>
    (if o.shortName ≠ "" then [o.shortName] else []) ++
    (if o.longName ≠ "" then [o.longName] else []) ++ acc) []))

/-- `Application::buildDuplicateArgNames` and the equivalent loop inside
`Command::parseCommand`: concatenate `name + ", "` over all map entries
whose value is `targetIdx`. -/
def dupNames (opts : List OptDesc) (targetIdx : Nat) : String :=
  ((mapKeys opts).filter
      (fun n => lookupName opts n = some targetIdx)).foldl
    (fun acc n => acc ++ n ++ ", ") ""

/-- The token walk shared by `Command::parseCommand` and the option part of
`Application::parse`: returns the `parseValue` write events
`(option index, raw token)` in order, and the exception that ended the
walk, if any.  `parsed` is the duplicate-detection set. -/
def cmdWalk (opts : List OptDesc) :
    List String → List Nat → List (Nat × String) × Option PErr
  | [], _ => ([], none)
  | tok :: rest, parsed =>
    match lookupName opts tok with
    | none => ([], some (.unknownArg tok))
    | some k =>
      if k ∈ parsed then ([], some (.multiArg (dupNames opts k)))
      else
        let o := optAt opts k
        if o.isBool = false then
          match rest with
          | [] => ([], some (.insufficientValues tok))
          | v :: rest2 =>
            if o.convOk v then
              let r := cmdWalk opts rest2 (k :: parsed)
              ((k, v) :: r.1, r.2)
            else ([], some .convFail)
        else
          let r := cmdWalk opts rest (k :: parsed)
          ((k, "true") :: r.1, r.2)

/-- `Command::parseCommand(args)`. -/
def parseCommand (cmd : CmdModel) (args : List String) :
    List (Nat × String) × Option PErr :=
  cmdWalk cmd.opts args []

/-- An `Application`: its global options and registered commands, each of
the latter paired (positionally) with a caller-supplied `executed` flag. -/
structure AppModel where
  opts : List OptDesc
  cmds : List CmdModel

/-- The observable outcome of one `Application::parse` call:
  * `gwrites`     — `parseValue` events on global options;
  * `dispatch`    — the command index and argument slice handed to
                    `parseCommand`, when a command token was reached;
  * `cwrites`     — `parseValue` events inside the dispatched command;
  * `executedSet` — the command index whose `*executed` flag was set true;
  * `err`         — the exception that ended the call, if any. -/
structure ParseResult where
  gwrites : List (Nat × String)
  dispatch : Option (Nat × List String)
  cwrites : List (Nat × String)
  executedSet : Option Nat
  err : Option PErr
deriving DecidableEq, Repr

/-- The token loop of `Application::parse`, with `processOption` and
`processCommand` inlined: a command token dispatches the remaining tokens
to that command's `parseCommand` and stops; `*executed = true` runs only
after `parseCommand` returns normally. -/
def appWalk (app : AppModel) : List String → List Nat → ParseResult
  | [], _ => ⟨[], none, [], none, none⟩
  | tok :: rest, parsed =>
    match lookupCmd app.cmds tok with
    | some k =>
      let cmd := cmdAt app.cmds k
      let r := parseCommand cmd rest
      ⟨[], some (k, rest), r.1,
        if r.2 = none then some k else none, r.2⟩
    | none =>
      match lookupName app.opts tok with
      | none => ⟨[], none, [], none, some (.unknownArg tok)⟩
      | some i =>
        if i ∈ parsed then
          ⟨[], none, [], none, some (.multiArg (dupNames app.opts i))⟩
        else
          let o := optAt app.opts i
          if o.isBool = false then
            match rest with
            | [] => ⟨[], none, [], none, some (.insufficientValues tok)⟩
            | v :: rest2 =>
              if o.convOk v then
                let r := appWalk app rest2 (i :: parsed)
                ⟨(i, v) :: r.gwrites, r.dispatch, r.cwrites,
                  r.executedSet, r.err⟩
              else ⟨[], none, [], none, some .convFail⟩
          else
            let r := appWalk app rest (i :: parsed)
            ⟨(i, "true") :: r.gwrites, r.dispatch, r.cwrites,
              r.executedSet, r.err⟩

/-- `Application::parse(argc, argv)` on the token vector built by
`buildArray`. -/
def parse (app : AppModel) (args : List String) : ParseResult :=
  appWalk app args []

/-- Final value of a `bool` target bound to option index `i` after
replaying the write events on initial value `init`: each event for `i`
stores `fromStr<bool>(tok)` into the target. -/
def boolTargetAfter (writes : List (Nat × String)) (i : Nat)
    (init : Bool) : Bool :=
  writes.foldl (fun v w => if w.1 = i then fromStrBool w.2 else v) init

/-! ### Concrete applications used as test vehicles -/

/-- A registered string-typed option "--name" (the string converter is the
identity function and never fails). -/
def nameOpt : OptDesc := ⟨"", "--name", false, fun _ => true⟩

/-- An application with global string option "--name" and a command
"serve". -/
def serveApp : AppModel := ⟨[nameOpt], [⟨"serve", []⟩]⟩

/-- An application with a single command "build" and no global options. -/
def buildApp : AppModel := ⟨[], [⟨"build", []⟩]⟩

/-- An application with one value-taking option aliased "-n" / "--num". -/
def numApp : AppModel := ⟨[⟨"-n", "--num", false, fun _ => true⟩], []⟩

/-- An application with one boolean flag aliased "-v" / "--verbose". -/
def flagApp : AppModel := ⟨[⟨"-v", "--verbose", true, fun _ => true⟩], []⟩

/-! ### Supporting lemmas -/

lemma charOfDigit_toNat {d : Nat} (h : d < 10) :
    (charOfDigit d).toNat = 48 + d := by
  interval_cases d <;> rfl

lemma isDigitC_charOfDigit {d : Nat} (h : d < 10) :
    isDigitC (charOfDigit d) = true := by
  simp only [isDigitC, charOfDigit_toNat h]
  simp only [Bool.and_eq_true, decide_eq_true_eq]
  omega

lemma digitVal_charOfDigit {d : Nat} (h : d < 10) :
    digitVal (charOfDigit d) = d := by
  simp only [digitVal, charOfDigit_toNat h]
  omega

lemma isSpaceC_charOfDigit {d : Nat} (h : d < 10) :
    isSpaceC (charOfDigit d) = false := by
  simp only [isSpaceC, charOfDigit_toNat h]
  simp only [Bool.or_eq_false_iff, decide_eq_false_iff_not]
  omega

lemma natLitChars_mem {n : Nat} {c : Char} (h : c ∈ natLitChars n) :
    ∃ d, d < 10 ∧ c = charOfDigit d := by
  unfold natLitChars at h
  split at h
  · simp at h
    exact ⟨0, by omega, h⟩
  · simp only [List.mem_map, List.mem_reverse] at h
    obtain ⟨d, hd, rfl⟩ := h
    exact ⟨d, Nat.digits_lt_base (by norm_num) hd, rfl⟩

lemma natLitChars_ne_nil (n : Nat) : natLitChars n ≠ [] := by
  unfold natLitChars
  split
  · simp
  · simp only [ne_eq, List.map_eq_nil_iff, List.reverse_eq_nil_iff]
    exact Nat.digits_ne_nil_iff_ne_zero.mpr (by assumption)

lemma takeWhile_all {p : Char → Bool} :
    ∀ {l : List Char}, (∀ c ∈ l, p c = true) → l.takeWhile p = l
  | [], _ => rfl
  | c :: r, h => by
    simp only [List.takeWhile_cons, h c (by simp), if_true]
    simp only [List.cons.injEq, true_and]
    exact takeWhile_all fun x hx => h x (by simp [hx])

lemma dropWhile_none {p : Char → Bool} :
    ∀ {l : List Char}, (∀ c ∈ l.take 1, p c = false) → l.dropWhile p = l
  | [], _ => rfl
  | c :: r, h => by
    simp only [List.dropWhile_cons, h c (by simp), Bool.false_eq_true,
      if_false]

lemma splitSign_noSign {cs : List Char}
    (h : ∀ c ∈ cs.take 1, c.toNat ≠ 45 ∧ c.toNat ≠ 43) :
    splitSign cs = (false, cs) := by
  cases cs with
  | nil => rfl
  | cons c r =>
    have := h c (by simp)
    simp [splitSign, this.1, this.2]

lemma foldlDigits_rev :
    ∀ {l : List Nat}, (∀ d ∈ l, d < 10) →
      ((l.reverse.map charOfDigit).foldl (fun a c => 10 * a + digitVal c) 0)
        = Nat.ofDigits 10 l
  | [], _ => by simp [Nat.ofDigits_nil]
  | d :: t, h => by
    have ht : ∀ x ∈ t, x < 10 := fun x hx => h x (by simp [hx])
    simp only [List.reverse_cons, List.map_append, List.foldl_append,
      List.map_cons, List.map_nil, List.foldl_cons, List.foldl_nil]
    rw [foldlDigits_rev ht, digitVal_charOfDigit (h d (by simp)),
      Nat.ofDigits_cons]
    ring

lemma natLitChars_foldl (n : Nat) :
    (natLitChars n).foldl (fun a c => 10 * a + digitVal c) 0 = n := by
  unfold natLitChars
  split
  · simp only [List.foldl_cons, List.foldl_nil]
    subst_vars
    rfl
  · rw [foldlDigits_rev (fun d hd => Nat.digits_lt_base (by norm_num) hd),
      Nat.ofDigits_digits]

lemma stoll_natLitChars (n : Nat) (h : (n : Int) ≤ int64Max) :
    stoll ⟨natLitChars n⟩ = .ok n := by
  have hd : ∀ c ∈ natLitChars n, isDigitC c = true := by
    intro c hc
    obtain ⟨d, hd10, rfl⟩ := natLitChars_mem hc
    exact isDigitC_charOfDigit hd10
  have hs : ∀ c ∈ natLitChars n, isSpaceC c = false := by
    intro c hc
    obtain ⟨d, hd10, rfl⟩ := natLitChars_mem hc
    exact isSpaceC_charOfDigit hd10
  have hsig : ∀ c ∈ (natLitChars n).take 1, c.toNat ≠ 45 ∧ c.toNat ≠ 43 := by
    intro c hc
    obtain ⟨d, hd10, rfl⟩ := natLitChars_mem (List.mem_of_mem_take hc)
    rw [charOfDigit_toNat hd10]
    omega
  unfold stoll
  simp only [dropWhile_none fun c hc => hs c (List.mem_of_mem_take hc),
    splitSign_noSign hsig, takeWhile_all hd, natLitChars_foldl,
    Bool.false_eq_true, if_false]
  rw [if_neg (by simpa using natLitChars_ne_nil n), if_neg]
  push_neg
  constructor
  · have h0 : (0 : Int) ≤ (n : Int) := by positivity
    simp only [int64Min]
    omega
  · exact h

lemma stoll_intLit (n : Int) (hmin : int64Min ≤ n) (hmax : n ≤ int64Max) :
    stoll (intLit n) = .ok n := by
  unfold intLit
  split
  · rename_i hneg
    have hd : ∀ c ∈ natLitChars n.natAbs, isDigitC c = true := by
      intro c hc
      obtain ⟨d, hd10, rfl⟩ := natLitChars_mem hc
      exact isDigitC_charOfDigit hd10
    have hdw : List.dropWhile isSpaceC ('-' :: natLitChars n.natAbs)
        = '-' :: natLitChars n.natAbs := by
      rw [dropWhile_none]
      intro c hc
      simp only [List.take_succ_cons, List.take_zero, List.mem_singleton]
        at hc
      subst hc
      rfl
    have hsp : splitSign ('-' :: natLitChars n.natAbs)
        = (true, natLitChars n.natAbs) := by
      simp [splitSign]
    unfold stoll
    simp only [hdw, hsp, takeWhile_all hd, natLitChars_foldl, if_true]
    rw [if_neg (by simpa using natLitChars_ne_nil n.natAbs), if_neg]
    · congr 1
      omega
    · push_neg
      have habs : ((n.natAbs : Nat) : Int) = -n := by omega
      rw [habs]
      simp only [int64Min, int64Max] at hmin hmax ⊢
      omega
  · rename_i hpos
    push_neg at hpos
    have h1 : ((n.toNat : Nat) : Int) = n := by omega
    rw [show stoll ⟨natLitChars n.toNat⟩ = .ok (n.toNat : Int) from
      stoll_natLitChars n.toNat (by omega)]
    rw [h1]

lemma fromStrInt16_intLit {n : Int} (h1 : -32768 ≤ n) (h2 : n ≤ 32767) :
    fromStrInt16 (intLit n) = .ok n := by
  unfold fromStrInt16 fromStrSigned
  rw [stoll_intLit n (by simp only [int64Min]; omega)
    (by simp only [int64Max]; omega)]
  simp only [if_neg (show ¬(n < -32768 ∨ n > 32767) by push_neg; omega)]

lemma fromStrSigned_range_err {tmin tmax : Int} {s : String} {p : RangePayload}
    (h : fromStrSigned tmin tmax s = .error (.valueOutOfRange p)) :
    p.min = tmin ∧ p.max = tmax ∧
      ∃ v, stoll s = .ok v ∧ (v < tmin ∨ v > tmax) ∧
        p.val = Int.emod v (2 ^ 64) := by
  unfold fromStrSigned at h
  split at h
  · simp at h
  · rename_i v hst
    split at h
    · rename_i hr
      simp only [Except.error.injEq, ConvErr.valueOutOfRange.injEq] at h
      subst h
      exact ⟨rfl, rfl, v, hst, hr, rfl⟩
    · simp at h

lemma fromStrUnsigned_range_err {tmax : Nat} {s : String} {p : RangePayload}
    (h : fromStrUnsigned tmax s = .error (.valueOutOfRange p)) :
    p.min = 0 ∧ p.max = tmax ∧
      ∃ v, stoull s = .ok v ∧ (tmax < v) ∧ p.val = (v : Int) := by
  unfold fromStrUnsigned at h
  split at h
  · simp at h
  · rename_i v hst
    split at h
    · rename_i hr
      simp only [Except.error.injEq, ConvErr.valueOutOfRange.injEq] at h
      subst h
      refine ⟨rfl, rfl, v, hst, ?_, rfl⟩
      rcases hr with hr | hr
      · omega
      · exact hr
    · simp at h

lemma validateSizeL_short_ok {cfg : NameValidationConfig} {cs : List Char} :
    validateSizeL cfg cs true = .ok () ↔
      ¬(cs.length = 0 ∨ cfg.shortNameLimit < cs.length) := by
  unfold validateSizeL
  constructor
  · intro h
    by_contra hc
    rw [if_pos ⟨rfl, by omega⟩] at h
    exact Except.noConfusion h
  · intro h
    rw [if_neg (by push_neg; intro _; omega), if_neg (by simp)]

lemma validateSizeL_long_ok {cfg : NameValidationConfig} {cs : List Char} :
    validateSizeL cfg cs false = .ok () ↔
      ¬(cs.length = 0 ∨ cs.length ≤ cfg.shortNameLimit ∨
        cfg.longNameLimit < cs.length) := by
  unfold validateSizeL
  constructor
  · intro h
    by_contra hc
    rw [if_neg (by simp), if_pos ⟨rfl, by omega⟩] at h
    exact Except.noConfusion h
  · intro h
    rw [if_neg (by simp), if_neg (by push_neg; intro _; omega)]

lemma createCommand_ok_name {cfg : NameValidationConfig} {name : String}
    {c : CmdModel} (h : createCommand cfg name = .ok c) : c = ⟨name, []⟩ := by
  unfold createCommand at h
  split at h
  · exact Except.noConfusion h
  · split at h
    · exact Except.noConfusion h
    · simp only [Except.ok.injEq] at h
      exact h.symm

lemma createCommand_ok_iff {name : String} :
    createCommand defaultConfig name = .ok ⟨name, []⟩ ↔
      (validateName defaultConfig name = .ok () ∧
        4 ≤ name.length ∧ name.length ≤ 100) := by
  have hlen : name.length = name.data.length := rfl
  have hsl : defaultConfig.shortNameLimit = 3 := rfl
  have hll : defaultConfig.longNameLimit = 100 := rfl
  unfold createCommand
  constructor
  · intro h
    have hv : validateName defaultConfig name = .ok () := by
      cases hvv : validateName defaultConfig name with
      | error e => rw [hvv] at h; exact Except.noConfusion h
      | ok u => cases u; rfl
    rw [hv] at h
    refine ⟨hv, ?_⟩
    have hsz : validateSize defaultConfig name false = .ok () := by
      cases hvv : validateSize defaultConfig name false with
      | error e => rw [hvv] at h; exact Except.noConfusion h
      | ok u => cases u; rfl
    have := (@validateSizeL_long_ok defaultConfig name.data).mp hsz
    push_neg at this
    omega
  · rintro ⟨hv, h1, h2⟩
    rw [hv]
    have hsz : validateSize defaultConfig name false = .ok () := by
      apply validateSizeL_long_ok.mpr
      push_neg
      omega
    rw [hsz]

/-! ### Claim C7 -/

/-- C7: `validateSize(name, true)` succeeds exactly unless the length is 0
or exceeds the short limit; `validateSize(name, false)` succeeds exactly
unless the length is 0, at most the short limit, or greater than the long
limit; consequently, with the default limits (3, 100), `createCommand`
rejects every name of length at most 3 or greater than 100 and accepts
every charset-valid name of length 4 to 100. -/
theorem c7_validate_size (cfg : NameValidationConfig) (name : String) :
    (validateSize cfg name true = .ok () ↔
      ¬(name.length = 0 ∨ cfg.shortNameLimit < name.length))
    ∧ (validateSize cfg name false = .ok () ↔
      ¬(name.length = 0 ∨ name.length ≤ cfg.shortNameLimit ∨
        cfg.longNameLimit < name.length))
    ∧ (∀ c : CmdModel, createCommand defaultConfig name = .ok c →
        4 ≤ name.length ∧ name.length ≤ 100)
    ∧ (validateName defaultConfig name = .ok () → 4 ≤ name.length →
        name.length ≤ 100 →
        createCommand defaultConfig name = .ok ⟨name, []⟩) := by
  refine ⟨validateSizeL_short_ok, validateSizeL_long_ok, ?_, ?_⟩
  · intro c h
    have hc := createCommand_ok_name h
    subst hc
    exact (createCommand_ok_iff.mp h).2
  · intro hv h1 h2
    exact createCommand_ok_iff.mpr ⟨hv, h1, h2⟩

/-- Witness for C7: the command name "build" (length 5, charset-valid) is
accepted by `createCommand` under the default policy. -/
theorem c7_witness :
    validateName defaultConfig "build" = .ok ()
    ∧ 4 ≤ ("build" : String).length ∧ ("build" : String).length ≤ 100
    ∧ createCommand defaultConfig "build" = .ok ⟨"build", []⟩ :=
  ⟨by decide, by decide, by decide,
   (c7_validate_size defaultConfig "build").2.2.2
     (by decide) (by decide) (by decide)⟩

/-! ### Claim C8 -/

/-- C8: the `bool` converter returns true if and only if its input string
is exactly "true"; every other string, including "false" and the empty
string, yields false.  `fromStrBool` is a total function into `Bool` (the
source specialization contains no throwing operation), so it never
raises. -/
theorem c8_bool_converter :
    (∀ s : String, fromStrBool s = true ↔ s = "true")
    ∧ fromStrBool "false" = false ∧ fromStrBool "" = false := by
  refine ⟨fun s => ?_, by decide, by decide⟩
  simp [fromStrBool]

/-! ### Claim C4 -/

/-- C4 (counterexample): the claim says the raised error carries the value
for every fixed-width integer type.  For the int16 converter at "-32769"
the parsed value is -32769, but the signed `outOfRange` overload takes a
`uint64_t` parameter, so the payload rendered into the error is
2^64 - 32769 = 18446744073709518847, not the value. -/
theorem c4_counterexample :
    fromStrInt16 "-32769" =
      .error (.valueOutOfRange ⟨18446744073709518847, -32768, 32767⟩)
    ∧ (18446744073709518847 : Int) ≠ -32769 := by decide

/-- C4 (amended): the uint8 converter maps "0" to 0 and "255" to 255 and
raises ValueOutOfRangeError for "256" and "-1"; the int16 converter accepts
every decimal literal in [-32768, 32767] and raises ValueOutOfRangeError
immediately outside; every such error carries the type's min and max, and
carries the parsed value reduced modulo 2^64 (signed types; the value
itself whenever it is nonnegative) or the parsed value itself (unsigned
types). -/
theorem c4_amended :
    fromStrUInt8 "0" = .ok 0
    ∧ fromStrUInt8 "255" = .ok 255
    ∧ fromStrUInt8 "256" = .error (.valueOutOfRange ⟨256, 0, 255⟩)
    ∧ fromStrUInt8 "-1" =
        .error (.valueOutOfRange ⟨18446744073709551615, 0, 255⟩)
    ∧ (∀ n : Int, -32768 ≤ n → n ≤ 32767 →
        fromStrInt16 (intLit n) = .ok n)
    ∧ fromStrInt16 "32768" =
        .error (.valueOutOfRange ⟨32768, -32768, 32767⟩)
    ∧ fromStrInt16 "-32769" =
        .error (.valueOutOfRange ⟨18446744073709518847, -32768, 32767⟩)
    ∧ (∀ tmin tmax : Int, ∀ s : String, ∀ p : RangePayload,
        fromStrSigned tmin tmax s = .error (.valueOutOfRange p) →
        p.min = tmin ∧ p.max = tmax ∧
          ∃ v, stoll s = .ok v ∧ (v < tmin ∨ v > tmax) ∧
            p.val = Int.emod v (2 ^ 64))
    ∧ (∀ tmax : Nat, ∀ s : String, ∀ p : RangePayload,
        fromStrUnsigned tmax s = .error (.valueOutOfRange p) →
        p.min = 0 ∧ p.max = tmax ∧
          ∃ v, stoull s = .ok v ∧ tmax < v ∧ p.val = (v : Int)) :=
  ⟨by decide, by decide, by decide, by decide,
   fun n h1 h2 => fromStrInt16_intLit h1 h2,
   by decide, by decide,
   fun _ _ _ _ h => fromStrSigned_range_err h,
   fun _ _ _ h => fromStrUnsigned_range_err h⟩

/-- Witness for C4 (amended): instantiates the universally quantified
int16 acceptance conjunct at the literal 12345. -/
theorem c4_amended_witness :
    (-32768 : Int) ≤ 12345 ∧ (12345 : Int) ≤ 32767 ∧
      fromStrInt16 (intLit 12345) = .ok 12345 :=
  ⟨by decide, by decide,
   c4_amended.2.2.2.2.1 12345 (by decide) (by decide)⟩

/-! ### Walk lemmas -/

lemma appWalk_executed (app : AppModel) :
    ∀ (args : List String) (parsed : List Nat),
      ∀ k, (appWalk app args parsed).executedSet = some k ↔
        ((∃ s, (appWalk app args parsed).dispatch = some (k, s)) ∧
          (appWalk app args parsed).err = none) := by
  intro args parsed
  induction args, parsed using appWalk.induct app with
  | case1 parsed => intro k; simp [appWalk]
  | case2 tok rest parsed k' hcm =>
    intro k
    simp only [appWalk, hcm]
    by_cases hr : (parseCommand (cmdAt app.cmds k') rest).2 = none
    · simp [hr]
    · simp [hr]
  | case3 tok rest parsed hcm hon =>
    intro k
    simp [appWalk, hcm, hon]
  | case4 tok rest parsed hcm i hon hmem =>
    intro k
    simp [appWalk, hcm, hon, hmem]
  | case5 tok parsed hcm i hon hmem o hb =>
    intro k
    have hb' : (optAt app.opts i).isBool = false := hb
    simp [appWalk, hcm, hon, hmem, hb']
  | case6 tok parsed hcm i hon hmem o hb v rest2 hconv ih =>
    intro k
    have hb' : (optAt app.opts i).isBool = false := hb
    have hconv' : (optAt app.opts i).convOk v = true := hconv
    simp only [appWalk, hcm, hon, if_neg hmem, hb', hconv', if_true]
    exact ih k
  | case7 tok parsed hcm i hon hmem o hb v rest2 hconv =>
    intro k
    have hb' : (optAt app.opts i).isBool = false := hb
    have hconv' : ¬(optAt app.opts i).convOk v = true := hconv
    simp [appWalk, hcm, hon, hmem, hb', hconv']
  | case8 tok rest parsed hcm i hon hmem o hb ih =>
    intro k
    have hb' : ¬(optAt app.opts i).isBool = false := hb
    simp only [appWalk, hcm, hon, if_neg hmem, hb', if_false]
    exact ih k

lemma appWalk_dispatch (app : AppModel) :
    ∀ (args : List String) (parsed : List Nat),
      ∀ k s, (appWalk app args parsed).dispatch = some (k, s) →
        (∃ pre tok, args = pre ++ tok :: s ∧ lookupCmd app.cmds tok = some k)
        ∧ ((appWalk app args parsed).cwrites, (appWalk app args parsed).err)
            = parseCommand (cmdAt app.cmds k) s := by
  intro args parsed
  induction args, parsed using appWalk.induct app with
  | case1 parsed => intro k s h; simp [appWalk] at h
  | case2 tok rest parsed k' hcm =>
    intro k s h
    simp only [appWalk, hcm] at h ⊢
    simp only [Option.some.injEq, Prod.mk.injEq] at h
    obtain ⟨rfl, rfl⟩ := h
    exact ⟨⟨[], tok, rfl, hcm⟩, rfl⟩
  | case3 tok rest parsed hcm hon =>
    intro k s h; simp [appWalk, hcm, hon] at h
  | case4 tok rest parsed hcm i hon hmem =>
    intro k s h; simp [appWalk, hcm, hon, hmem] at h
  | case5 tok parsed hcm i hon hmem o hb =>
    intro k s h
    have hb' : (optAt app.opts i).isBool = false := hb
    simp [appWalk, hcm, hon, hmem, hb'] at h
  | case6 tok parsed hcm i hon hmem o hb v rest2 hconv ih =>
    intro k s h
    have hb' : (optAt app.opts i).isBool = false := hb
    have hconv' : (optAt app.opts i).convOk v = true := hconv
    simp only [appWalk, hcm, hon, if_neg hmem, hb', hconv', if_true] at h ⊢
    obtain ⟨⟨pre, tok', heq, hc⟩, hcw⟩ := ih k s h
    exact ⟨⟨tok :: v :: pre, tok', by rw [heq]; rfl, hc⟩, hcw⟩
  | case7 tok parsed hcm i hon hmem o hb v rest2 hconv =>
    intro k s h
    have hb' : (optAt app.opts i).isBool = false := hb
    have hconv' : ¬(optAt app.opts i).convOk v = true := hconv
    simp [appWalk, hcm, hon, hmem, hb', hconv'] at h
  | case8 tok rest parsed hcm i hon hmem o hb ih =>
    intro k s h
    have hb' : ¬(optAt app.opts i).isBool = false := hb
    simp only [appWalk, hcm, hon, if_neg hmem, hb', if_false] at h ⊢
    obtain ⟨⟨pre, tok', heq, hc⟩, hcw⟩ := ih k s h
    exact ⟨⟨tok :: pre, tok', by rw [heq]; rfl, hc⟩, hcw⟩

lemma cmdWalk_writes (opts : List OptDesc) :
    ∀ (args : List String) (parsed : List Nat),
      ∀ i s, (i, s) ∈ (cmdWalk opts args parsed).1 →
        (∃ tok, tok ∈ args ∧ lookupName opts tok = some i)
        ∧ ((optAt opts i).isBool = true → s = "true") := by
  intro args parsed
  induction args, parsed using cmdWalk.induct opts with
  | case1 parsed => intro i s h; simp [cmdWalk] at h
  | case2 tok rest parsed hon =>
    intro i s h; simp [cmdWalk, hon] at h
  | case3 tok rest parsed k hon hmem =>
    intro i s h; simp [cmdWalk, hon, hmem] at h
  | case4 tok parsed k hon hmem o hb =>
    intro i s h
    have hb' : (optAt opts k).isBool = false := hb
    simp [cmdWalk, hon, hmem, hb'] at h
  | case5 tok parsed k hon hmem o hb v rest2 hconv ih =>
    intro i s h
    have hb' : (optAt opts k).isBool = false := hb
    have hconv' : (optAt opts k).convOk v = true := hconv
    simp only [cmdWalk, hon, if_neg hmem, hb', hconv', if_true] at h
    rcases List.mem_cons.mp h with heq | hmem2
    · obtain ⟨rfl, rfl⟩ : i = k ∧ s = v := by simpa using heq
      refine ⟨⟨tok, by simp, hon⟩, fun hbt => ?_⟩
      exact Bool.noConfusion (hb'.symm.trans hbt)
    · obtain ⟨⟨tok', ht, hl⟩, hbs⟩ := ih i s hmem2
      exact ⟨⟨tok', by simp [ht], hl⟩, hbs⟩
  | case6 tok parsed k hon hmem o hb v rest2 hconv =>
    intro i s h
    have hb' : (optAt opts k).isBool = false := hb
    have hconv' : ¬(optAt opts k).convOk v = true := hconv
    simp [cmdWalk, hon, hmem, hb', hconv'] at h
  | case7 tok rest parsed k hon hmem o hb ih =>
    intro i s h
    have hb' : ¬(optAt opts k).isBool = false := hb
    simp only [cmdWalk, hon, if_neg hmem, hb', if_false] at h
    rcases List.mem_cons.mp h with heq | hmem2
    · obtain ⟨rfl, rfl⟩ : i = k ∧ s = "true" := by simpa using heq
      exact ⟨⟨tok, by simp, hon⟩, fun _ => rfl⟩
    · obtain ⟨⟨tok', ht, hl⟩, hbs⟩ := ih i s hmem2
      exact ⟨⟨tok', by simp [ht], hl⟩, hbs⟩

lemma appWalk_gwrites (app : AppModel) :
    ∀ (args : List String) (parsed : List Nat),
      ∀ i s, (i, s) ∈ (appWalk app args parsed).gwrites →
        (∃ tok, tok ∈ args ∧ lookupName app.opts tok = some i)
        ∧ ((optAt app.opts i).isBool = true → s = "true") := by
  intro args parsed
  induction args, parsed using appWalk.induct app with
  | case1 parsed => intro i s h; simp [appWalk] at h
  | case2 tok rest parsed k' hcm =>
    intro i s h; simp [appWalk, hcm] at h
  | case3 tok rest parsed hcm hon =>
    intro i s h; simp [appWalk, hcm, hon] at h
  | case4 tok rest parsed hcm i' hon hmem =>
    intro i s h; simp [appWalk, hcm, hon, hmem] at h
  | case5 tok parsed hcm i' hon hmem o hb =>
    intro i s h
    have hb' : (optAt app.opts i').isBool = false := hb
    simp [appWalk, hcm, hon, hmem, hb'] at h
  | case6 tok parsed hcm i' hon hmem o hb v rest2 hconv ih =>
    intro i s h
    have hb' : (optAt app.opts i').isBool = false := hb
    have hconv' : (optAt app.opts i').convOk v = true := hconv
    simp only [appWalk, hcm, hon, if_neg hmem, hb', hconv', if_true] at h
    rcases List.mem_cons.mp h with heq | hmem2
    · obtain ⟨rfl, rfl⟩ : i = i' ∧ s = v := by simpa using heq
      refine ⟨⟨tok, by simp, hon⟩, fun hbt => ?_⟩
      exact Bool.noConfusion (hb'.symm.trans hbt)
    · obtain ⟨⟨tok', ht, hl⟩, hbs⟩ := ih i s hmem2
      exact ⟨⟨tok', by simp [ht], hl⟩, hbs⟩
  | case7 tok parsed hcm i' hon hmem o hb v rest2 hconv =>
    intro i s h
    have hb' : (optAt app.opts i').isBool = false := hb
    have hconv' : ¬(optAt app.opts i').convOk v = true := hconv
    simp [appWalk, hcm, hon, hmem, hb', hconv'] at h
  | case8 tok rest parsed hcm i' hon hmem o hb ih =>
    intro i s h
    have hb' : ¬(optAt app.opts i').isBool = false := hb
    simp only [appWalk, hcm, hon, if_neg hmem, hb', if_false] at h
    rcases List.mem_cons.mp h with heq | hmem2
    · obtain ⟨rfl, rfl⟩ : i = i' ∧ s = "true" := by simpa using heq
      exact ⟨⟨tok, by simp, hon⟩, fun _ => rfl⟩
    · obtain ⟨⟨tok', ht, hl⟩, hbs⟩ := ih i s hmem2
      exact ⟨⟨tok', by simp [ht], hl⟩, hbs⟩

lemma boolTargetAfter_cases {i : Nat} :
    ∀ {writes : List (Nat × String)} {init : Bool},
      (∀ s, (i, s) ∈ writes → s = "true") →
      boolTargetAfter writes i init = init ∨
        boolTargetAfter writes i init = true := by
  intro writes
  induction writes with
  | nil => intro init _; left; rfl
  | cons w ws ih =>
    intro init h
    by_cases hw : w.1 = i
    · have hs : w.2 = "true" :=
        h w.2 (List.mem_cons.mpr (Or.inl (by rw [← hw])))
      have h1 : boolTargetAfter (w :: ws) i init
          = boolTargetAfter ws i true := by
        simp [boolTargetAfter, hw, hs, fromStrBool]
      rw [h1]
      rcases @ih true (fun s hsm => h s (by simp [hsm])) with h2 | h2
      · right; exact h2
      · right; exact h2
    · have h1 : boolTargetAfter (w :: ws) i init
          = boolTargetAfter ws i init := by
        simp [boolTargetAfter, hw]
      rw [h1]
      exact ih fun s hsm => h s (by simp [hsm])

lemma lookupFrom_inv {tok : String} :
    ∀ {l : List OptDesc} {base k : Nat}, lookupFrom tok l base = some k →
      ∃ j o, l.get? j = some o ∧ k = base + j ∧
        ((o.shortName ≠ "" ∧ o.shortName = tok) ∨
          (o.longName ≠ "" ∧ o.longName = tok)) := by
  intro l
  induction l with
  | nil => intro base k h; simp [lookupFrom] at h
  | cons o rest ih =>
    intro base k h
    simp only [lookupFrom] at h
    by_cases ht : (lookupFrom tok rest (base + 1)).isSome
    · rw [if_pos ht] at h
      obtain ⟨j, o', hj, hk, hm⟩ := ih h
      exact ⟨j + 1, o', by simpa using hj, by omega, hm⟩
    · rw [if_neg ht] at h
      by_cases hc : (o.shortName ≠ "" ∧ o.shortName = tok) ∨
          (o.longName ≠ "" ∧ o.longName = tok)
      · rw [if_pos hc] at h
        have hk := Option.some.inj h
        exact ⟨0, o, rfl, by omega, hc⟩
      · rw [if_neg hc] at h
        exact Option.noConfusion h

lemma lookupName_inv {opts : List OptDesc} {tok : String} {k : Nat}
    (h : lookupName opts tok = some k) :
    ∃ o, opts.get? k = some o ∧
      ((o.shortName ≠ "" ∧ o.shortName = tok) ∨
        (o.longName ≠ "" ∧ o.longName = tok)) := by
  obtain ⟨j, o, hj, hk, hm⟩ := lookupFrom_inv h
  exact ⟨o, by rw [hk]; simpa using hj, hm⟩

lemma validChar_nf_toNat {cfg : NameValidationConfig} {c : Char}
    (h : validChar cfg c false = true) :
    (48 ≤ c.toNat ∧ c.toNat ≤ 57) ∨ (65 ≤ c.toNat ∧ c.toNat ≤ 90) ∨
    (97 ≤ c.toNat ∧ c.toNat ≤ 122) ∨ c.toNat = 45 ∨ c.toNat = 46 ∨
    c.toNat = 95 := by
  unfold validChar at h
  rw [if_neg (by simp)] at h
  by_cases ha : isAlnumC c = true
  · unfold isAlnumC isAlphaC isDigitC at ha
    simp only [Bool.or_eq_true, Bool.and_eq_true, decide_eq_true_eq] at ha
    tauto
  · rw [if_neg ha] at h
    by_cases hd : (cfg.nameContainsDashes && decide (c.toNat = 45)) = true
    · simp only [Bool.and_eq_true, decide_eq_true_eq] at hd
      tauto
    · rw [if_neg hd] at h
      by_cases hdot : (cfg.nameContainsDots && decide (c.toNat = 46)) = true
      · simp only [Bool.and_eq_true, decide_eq_true_eq] at hdot
        tauto
      · rw [if_neg hdot] at h
        by_cases hu :
            (cfg.nameContainsUnderscores && decide (c.toNat = 95)) = true
        · simp only [Bool.and_eq_true, decide_eq_true_eq] at hu
          tauto
        · rw [if_neg hu] at h
          exact Bool.noConfusion h

lemma validChar_nf_not_space {cfg : NameValidationConfig} {c : Char}
    (h : validChar cfg c false = true) : isSpaceC c = false := by
  have hx := validChar_nf_toNat h
  simp only [isSpaceC, Bool.or_eq_false_iff, decide_eq_false_iff_not]
  omega

lemma validChar_nf_not_comma {cfg : NameValidationConfig} {c : Char}
    (h : validChar cfg c false = true) : c.toNat ≠ 44 := by
  have hx := validChar_nf_toNat h
  omega

lemma validateNameLoop_all {cfg : NameValidationConfig} {orig : String} :
    ∀ {cs : List Char} {first : Bool},
      validateNameLoop cfg orig cs first = .ok () →
      ∀ c ∈ cs, validChar cfg c false = true := by
  intro cs
  induction cs with
  | nil => intro first _ c hc; simp at hc
  | cons c rest ih =>
    intro first h d hd
    unfold validateNameLoop at h
    split at h
    · exact Except.noConfusion h
    · split at h
      · exact Except.noConfusion h
      · rename_i h1 h2
        rcases List.mem_cons.mp hd with rfl | hdr
        · simpa using h2
        · exact ih h d hdr

lemma validateNameL_ne_nil {cfg : NameValidationConfig} {cs : List Char}
    (h : validateNameL cfg cs = .ok ()) : cs ≠ [] := by
  intro hc
  rw [hc] at h
  unfold validateNameL at h
  simp at h

lemma validateNameL_all {cfg : NameValidationConfig} {cs : List Char}
    (h : validateNameL cfg cs = .ok ()) :
    ∀ c ∈ cs, validChar cfg c false = true := by
  have hne := validateNameL_ne_nil h
  unfold validateNameL at h
  rw [if_neg hne] at h
  exact validateNameLoop_all h

lemma dropWhile_all_false {p : Char → Bool} {l : List Char}
    (h : ∀ c ∈ l, p c = false) : l.dropWhile p = l := by
  cases l with
  | nil => rfl
  | cons c r => simp [List.dropWhile_cons, h c (by simp)]

lemma trim_noSpace {cs : List Char} (h : ∀ c ∈ cs, isSpaceC c = false) :
    trim cs = cs := by
  unfold trim
  rw [dropWhile_all_false h,
    dropWhile_all_false (fun c hc => h c (List.mem_reverse.mp hc)),
    List.reverse_reverse]

lemma splitAtComma_append {a b : List Char}
    (h : ∀ c ∈ a, c.toNat ≠ 44) :
    splitAtComma (a ++ ',' :: b) = some (a, b) := by
  induction a with
  | nil => simp [splitAtComma]
  | cons c r ih =>
    have hc : c.toNat ≠ 44 := h c (by simp)
    simp only [List.cons_append, splitAtComma, if_neg hc, List.append_eq,
      ih fun d hd => h d (by simp [hd])]

lemma optionValidateName_combined {sd ld : List Char}
    (hs : validateNameL defaultConfig sd = .ok ())
    (hsLen : sd.length ≤ 3)
    (hl : validateNameL defaultConfig ld = .ok ())
    (hlLen1 : 4 ≤ ld.length) (hlLen2 : ld.length ≤ 100) :
    optionValidateName defaultConfig ⟨'-' :: (sd ++ ',' :: '-' :: '-' :: ld)⟩
      = .ok (sd, ld) := by
  have hsv := validateNameL_all hs
  have hlv := validateNameL_all hl
  have hsne := validateNameL_ne_nil hs
  have hnosp : ∀ c ∈ '-' :: (sd ++ ',' :: '-' :: '-' :: ld),
      isSpaceC c = false := by
    intro c hc
    simp only [List.mem_cons, List.mem_append] at hc
    rcases hc with rfl | (hcs | hc)
    · rfl
    · exact validChar_nf_not_space (hsv c hcs)
    · rcases hc with rfl | rfl | rfl | hcl
      · rfl
      · rfl
      · rfl
      · exact validChar_nf_not_space (hlv c hcl)
  have htrim : trim ('-' :: (sd ++ ',' :: '-' :: '-' :: ld))
      = '-' :: (sd ++ ',' :: '-' :: '-' :: ld) := trim_noSpace hnosp
  have hsplit : splitAtComma ('-' :: (sd ++ ',' :: '-' :: '-' :: ld))
      = some ('-' :: sd, '-' :: '-' :: ld) := by
    have : '-' :: (sd ++ ',' :: '-' :: '-' :: ld)
        = ('-' :: sd) ++ ',' :: ('-' :: '-' :: ld) := by simp
    rw [this]
    apply splitAtComma_append
    intro c hc
    rcases List.mem_cons.mp hc with rfl | hcs
    · decide
    · exact validChar_nf_not_comma (hsv c hcs)
  have htrimS : trim ('-' :: sd) = '-' :: sd := by
    apply trim_noSpace
    intro c hc
    rcases List.mem_cons.mp hc with rfl | hcs
    · rfl
    · exact validChar_nf_not_space (hsv c hcs)
  have htrimL : trim ('-' :: '-' :: ld) = '-' :: '-' :: ld := by
    apply trim_noSpace
    intro c hc
    rcases List.mem_cons.mp hc with rfl | hc
    · rfl
    · rcases List.mem_cons.mp hc with rfl | hcl
      · rfl
      · exact validChar_nf_not_space (hlv c hcl)
  have hsizeS : validateSizeL defaultConfig sd true = .ok () := by
    apply validateSizeL_short_ok.mpr
    push_neg
    have : sd.length ≠ 0 := by
      intro h0
      exact hsne (List.eq_nil_of_length_eq_zero h0)
    refine ⟨this, ?_⟩
    show sd.length ≤ defaultConfig.shortNameLimit
    have : defaultConfig.shortNameLimit = 3 := rfl
    omega
  have hsizeL : validateSizeL defaultConfig ld false = .ok () := by
    apply validateSizeL_long_ok.mpr
    push_neg
    have h3 : defaultConfig.shortNameLimit = 3 := rfl
    have h100 : defaultConfig.longNameLimit = 100 := rfl
    refine ⟨by omega, by omega, by omega⟩
  unfold optionValidateName
  rw [if_neg (by simp)]
  simp only [htrim, hsplit]
  rw [if_neg (by simp)]
  simp only [htrimS, htrimL]
  rw [if_neg (by simp), if_neg (by simp)]
  simp only [List.head?_cons, List.tail_cons, List.take_succ_cons,
    List.take_zero, List.drop_succ_cons, List.drop_zero]
  simp only [if_true, hs, hl, hsizeS, hsizeL]

/-! ### Claim C6 -/

/-- C6: for every combined spec string "-s,--long" whose short half is
alphabetic-first, at most 3 characters and policy-charset-valid (that is,
`validateName` accepts it) and whose long half is alphabetic-first, 4 to
100 characters and policy-charset-valid, `createOption` succeeds and the
resulting option's shortName is "-" + s and longName is "--" + long
(both halves are trimmed first; charset-valid names contain no
whitespace, so trimming leaves them unchanged). -/
theorem c6_combined_spec (s l : String)
    (hs : validateNameL defaultConfig s.data = .ok ())
    (hsLen : s.length ≤ 3)
    (hl : validateNameL defaultConfig l.data = .ok ())
    (hlLen1 : 4 ≤ l.length) (hlLen2 : l.length ≤ 100) :
    createOption defaultConfig ("-" ++ s ++ ",--" ++ l)
      = .ok ("-" ++ s, "--" ++ l) := by
  have hdata : ("-" ++ s ++ ",--" ++ l).data
      = '-' :: (s.data ++ ',' :: '-' :: '-' :: l.data) := by
    simp only [String.data_append]
    simp
  have hspec : ("-" ++ s ++ ",--" ++ l)
      = (⟨'-' :: (s.data ++ ',' :: '-' :: '-' :: l.data)⟩ : String) :=
    String.ext hdata
  have hsne : s.data ≠ [] := validateNameL_ne_nil hs
  have hlne : l.data ≠ [] := validateNameL_ne_nil hl
  unfold createOption
  rw [hspec, optionValidateName_combined hs hsLen hl hlLen1 hlLen2]
  simp only [if_neg hsne, if_neg hlne]
  have e1 : (⟨'-' :: s.data⟩ : String) = "-" ++ s := by
    apply String.ext
    simp [String.data_append]
  have e2 : (⟨'-' :: '-' :: l.data⟩ : String) = "--" ++ l := by
    apply String.ext
    simp [String.data_append]
  rw [e1, e2]

/-- Witness for C6: the spec "-v,--verbose" yields shortName "-v" and
longName "--verbose". -/
theorem c6_combined_spec_witness :
    validateNameL defaultConfig ("v" : String).data = .ok ()
    ∧ ("v" : String).length ≤ 3
    ∧ validateNameL defaultConfig ("verbose" : String).data = .ok ()
    ∧ 4 ≤ ("verbose" : String).length ∧ ("verbose" : String).length ≤ 100
    ∧ createOption defaultConfig ("-" ++ "v" ++ ",--" ++ "verbose")
        = .ok ("-" ++ "v", "--" ++ "verbose") :=
  ⟨by decide, by decide, by decide, by decide, by decide,
   c6_combined_spec "v" "verbose" (by decide) (by decide) (by decide)
     (by decide) (by decide)⟩

/-! ### Claim C1 -/

/-- C1 (counterexample): in `parse buildApp ["build", "--oops"]` the
command name "build" is matched and dispatched, but its `parseCommand`
raises UnknownArgumentError for "--oops"; because `*executed = true` runs
only after `parseCommand` returns normally (`processCommand`), the
executed flag is never set, contradicting "it is set even when the
command's own argument parsing subsequently fails". -/
theorem c1_counterexample :
    (parse buildApp ["build", "--oops"]).dispatch = some (0, ["--oops"])
    ∧ (parse buildApp ["build", "--oops"]).err
        = some (.unknownArg "--oops")
    ∧ (parse buildApp ["build", "--oops"]).executedSet = none := by decide

/-- C1 (amended): the caller-supplied executed flag bound to a command is
set true if and only if that command's name was matched as a token during
the parse call and the command's own argument parsing (`parseCommand` on
the remaining slice) returned without raising; in particular it is never
set when the name was not matched. -/
theorem c1_executed_flag (app : AppModel) (args : List String) (k : Nat) :
    (parse app args).executedSet = some k ↔
      ((∃ s, (parse app args).dispatch = some (k, s)) ∧
        (parse app args).err = none) :=
  appWalk_executed app args [] k

/-- Witness for C1 (amended): a successful dispatch of "build" sets the
executed flag. -/
theorem c1_executed_flag_witness :
    (parse buildApp ["build"]).executedSet = some 0 :=
  (c1_executed_flag buildApp ["build"] 0).mpr ⟨⟨[], by decide⟩, by decide⟩

/-! ### Claim C2 -/

/-- C2 (counterexample): with string option "--name" and command "serve"
registered, on `["--name", "serve", "serve"]` the first token equal to a
registered command name is the one at position 1, and the tokens after it
are `["serve"]`; but that occurrence is consumed as the value of "--name"
(gwrites records it), and the dispatch — triggered by the token at
position 2 — hands `parseCommand` the empty slice, not `["serve"]`. -/
theorem c2_counterexample :
    lookupCmd serveApp.cmds "--name" = none
    ∧ lookupCmd serveApp.cmds "serve" = some 0
    ∧ (parse serveApp ["--name", "serve", "serve"]).gwrites
        = [(0, "serve")]
    ∧ (parse serveApp ["--name", "serve", "serve"]).dispatch = some (0, [])
    ∧ some ((0 : Nat), ([] : List String)) ≠ some (0, ["serve"]) := by
  decide

/-- C2 (amended): when a parse call dispatches to a command, the
dispatching token is the first token examined at the global level that is
a registered command name (a command name consumed as an option's value
does not dispatch), and exactly the tokens after it form the slice handed
to that command's `parseCommand`; the command's writes and error are those
of `parseCommand` on the slice, no later token is processed globally, and
at most one registered command's executed flag becomes true per call. -/
theorem c2_command_dispatch (app : AppModel) (args : List String) :
    (∀ k s, (parse app args).dispatch = some (k, s) →
      (∃ pre tok, args = pre ++ tok :: s ∧ lookupCmd app.cmds tok = some k)
      ∧ ((parse app args).cwrites, (parse app args).err)
          = parseCommand (cmdAt app.cmds k) s)
    ∧ (∀ k, (parse app args).executedSet = some k →
        ∃ s, (parse app args).dispatch = some (k, s))
    ∧ (∀ k k', (parse app args).executedSet = some k →
        (parse app args).executedSet = some k' → k = k') := by
  refine ⟨fun k s h => appWalk_dispatch app args [] k s h, ?_, ?_⟩
  · intro k h
    exact ((appWalk_executed app args [] k).mp h).1
  · intro k k' h h'
    exact Option.some.inj (h.symm.trans h')

/-- Witness for C2 (amended): the dispatch of "build" on `["build"]`
decomposes the token list around the command token. -/
theorem c2_command_dispatch_witness :
    (∃ pre tok, (["build"] : List String) = pre ++ tok :: ([] : List String)
        ∧ lookupCmd buildApp.cmds tok = some 0)
    ∧ ((parse buildApp ["build"]).cwrites, (parse buildApp ["build"]).err)
        = parseCommand (cmdAt buildApp.cmds 0) [] :=
  (c2_command_dispatch buildApp ["build"]).1 0 [] (by decide)

/-! ### Claim C3 -/

/-- C3: two tokens resolve to the same registered option exactly when the
name map sends them to the same option index (the index always belongs to
an option one of whose alias names is the token); whenever the walk —
in `parseCommand` or in `parse` — reaches a second token mapping to an
already-satisfied index, it raises DuplicateArgumentError there, for every
alias combination and order (t1 and t2 range over any alias names of the
option at index k) and for flag options as well as value options. -/
theorem c3_duplicate_rejection (app : AppModel) (t1 t2 v : String)
    (k : Nat) (rest : List String)
    (h1 : lookupName app.opts t1 = some k)
    (h2 : lookupName app.opts t2 = some k) :
    (∃ o, app.opts.get? k = some o ∧
      ((o.shortName ≠ "" ∧ o.shortName = t1) ∨
        (o.longName ≠ "" ∧ o.longName = t1)))
    ∧ ((optAt app.opts k).isBool = true →
        cmdWalk app.opts (t1 :: t2 :: rest) []
          = ([(k, "true")], some (.multiArg (dupNames app.opts k))))
    ∧ ((optAt app.opts k).isBool = false →
        (optAt app.opts k).convOk v = true →
        cmdWalk app.opts (t1 :: v :: t2 :: rest) []
          = ([(k, v)], some (.multiArg (dupNames app.opts k))))
    ∧ (lookupCmd app.cmds t1 = none → lookupCmd app.cmds t2 = none →
        (optAt app.opts k).isBool = true →
        parse app (t1 :: t2 :: rest)
          = ⟨[(k, "true")], none, [], none,
              some (.multiArg (dupNames app.opts k))⟩)
    ∧ (lookupCmd app.cmds t1 = none → lookupCmd app.cmds t2 = none →
        (optAt app.opts k).isBool = false →
        (optAt app.opts k).convOk v = true →
        parse app (t1 :: v :: t2 :: rest)
          = ⟨[(k, v)], none, [], none,
              some (.multiArg (dupNames app.opts k))⟩) := by
  refine ⟨lookupName_inv h1, ?_, ?_, ?_, ?_⟩
  · intro hb
    have hb' : ¬(optAt app.opts k).isBool = false := by simp [hb]
    simp [cmdWalk, h1, h2, hb']
  · intro hb hcv
    simp [cmdWalk, h1, h2, hb, hcv]
  · intro hc1 hc2 hb
    have hb' : ¬(optAt app.opts k).isBool = false := by simp [hb]
    simp [parse, appWalk, hc1, hc2, h1, h2, hb']
  · intro hc1 hc2 hb hcv
    simp [parse, appWalk, hc1, hc2, h1, h2, hb, hcv]

/-- Witness for C3: the option aliased "-n"/"--num" supplied once by each
alias raises DuplicateArgumentError at the second occurrence. -/
theorem c3_witness :
    lookupName numApp.opts "-n" = some 0
    ∧ lookupName numApp.opts "--num" = some 0
    ∧ parse numApp ["-n", "5", "--num", "6"]
        = ⟨[(0, "5")], none, [], none,
            some (.multiArg (dupNames numApp.opts 0))⟩ :=
  ⟨by decide, by decide,
   (c3_duplicate_rejection numApp "-n" "--num" "5" 0 ["6"]
       (by decide) (by decide)).2.2.2.2
     (by decide) (by decide) (by decide) (by decide)⟩

/-! ### Claim C5 -/

/-- C5: in `parseCommand` and in `parse`, a token resolving to a
value-needing option that is the last token raises
InsufficientValuesError; otherwise the immediately following token is
consumed as that option's value (a write event for that option with that
token) and the walk continues after both tokens. -/
theorem c5_option_values (app : AppModel) (tok v : String) (k : Nat)
    (parsed : List Nat) (rest : List String)
    (hk : lookupName app.opts tok = some k) (hnp : k ∉ parsed)
    (hb : (optAt app.opts k).isBool = false) :
    (cmdWalk app.opts [tok] parsed
        = ([], some (.insufficientValues tok)))
    ∧ ((optAt app.opts k).convOk v = true →
        cmdWalk app.opts (tok :: v :: rest) parsed
          = ((k, v) :: (cmdWalk app.opts rest (k :: parsed)).1,
             (cmdWalk app.opts rest (k :: parsed)).2))
    ∧ (lookupCmd app.cmds tok = none →
        appWalk app [tok] parsed
          = ⟨[], none, [], none, some (.insufficientValues tok)⟩)
    ∧ (lookupCmd app.cmds tok = none →
        (optAt app.opts k).convOk v = true →
        appWalk app (tok :: v :: rest) parsed
          = ⟨(k, v) :: (appWalk app rest (k :: parsed)).gwrites,
             (appWalk app rest (k :: parsed)).dispatch,
             (appWalk app rest (k :: parsed)).cwrites,
             (appWalk app rest (k :: parsed)).executedSet,
             (appWalk app rest (k :: parsed)).err⟩) := by
  refine ⟨?_, ?_, ?_, ?_⟩
  · simp [cmdWalk, hk, hnp, hb]
  · intro hcv
    simp [cmdWalk, hk, hnp, hb, hcv]
  · intro hc
    simp [appWalk, hc, hk, hnp, hb]
  · intro hc hcv
    simp [appWalk, hc, hk, hnp, hb, hcv]

/-- Witness for C5: "-n" as the last token raises
InsufficientValuesError. -/
theorem c5_option_values_witness :
    lookupName numApp.opts "-n" = some 0
    ∧ (0 : Nat) ∉ ([] : List Nat)
    ∧ (optAt numApp.opts 0).isBool = false
    ∧ cmdWalk numApp.opts ["-n"] []
        = ([], some (.insufficientValues "-n")) :=
  ⟨by decide, by decide, by decide,
   (c5_option_values numApp "-n" "x" 0 [] []
       (by decide) (by decide) (by decide)).1⟩

/-! ### Claim C9 -/

/-- C9: parsing an empty argument sequence performs no writes, dispatches
no command, sets no executed flag and raises nothing — every caller-bound
target keeps its initial value (a target changes only through a
`parseValue` write event); more generally every write event, global or
inside the dispatched command, belongs to an option that some processed
token resolved to, so unmatched options keep their pre-parse values. -/
theorem c9_empty_and_frame (app : AppModel) :
    parse app [] = ⟨[], none, [], none, none⟩
    ∧ (∀ args i s, (i, s) ∈ (parse app args).gwrites →
        ∃ tok, tok ∈ args ∧ lookupName app.opts tok = some i)
    ∧ (∀ args k slice i s,
        (parse app args).dispatch = some (k, slice) →
        (i, s) ∈ (parse app args).cwrites →
        ∃ tok, tok ∈ slice ∧
          lookupName (cmdAt app.cmds k).opts tok = some i) := by
  refine ⟨rfl, ?_, ?_⟩
  · intro args i s h
    exact ((appWalk_gwrites app args [] i s) h).1
  · intro args k slice i s hd h
    have hw := (appWalk_dispatch app args [] k slice hd).2
    have hcw : (parse app args).cwrites
        = (parseCommand (cmdAt app.cmds k) slice).1 := by
      rw [← hw]
      rfl
    rw [hcw] at h
    exact (cmdWalk_writes (cmdAt app.cmds k).opts slice [] i s h).1

/-- Witness for C9: the single write of `parse flagApp ["-v"]` belongs to
the option that the token "-v" resolves to. -/
theorem c9_empty_and_frame_witness :
    ((0 : Nat), "true") ∈ (parse flagApp ["-v"]).gwrites
    ∧ ∃ tok, tok ∈ ["-v"] ∧ lookupName flagApp.opts tok = some 0 :=
  ⟨by decide, (c9_empty_and_frame flagApp).2.1 ["-v"] 0 "true" (by decide)⟩

/-! ### Claim C10 -/

/-- C10: matching a boolean (presence-flag) option calls `parseValue` with
the fixed string "true" — every write event for a bool option carries
"true", whose conversion `fromStr<bool>` yields true — so after any parse
or parseCommand call a bool target is either unchanged or true; parsing
can never write false into a flag's target. -/
theorem c10_flag_targets (app : AppModel) (args : List String) (i : Nat)
    (init : Bool) :
    ((optAt app.opts i).isBool = true →
      (∀ s, (i, s) ∈ (parse app args).gwrites → s = "true")
      ∧ (boolTargetAfter (parse app args).gwrites i init = init ∨
         boolTargetAfter (parse app args).gwrites i init = true))
    ∧ (∀ k slice, (parse app args).dispatch = some (k, slice) →
        (optAt (cmdAt app.cmds k).opts i).isBool = true →
        (∀ s, (i, s) ∈ (parse app args).cwrites → s = "true")
        ∧ (boolTargetAfter (parse app args).cwrites i init = init ∨
           boolTargetAfter (parse app args).cwrites i init = true)) := by
  constructor
  · intro hb
    have hall : ∀ s, (i, s) ∈ (parse app args).gwrites → s = "true" :=
      fun s h => ((appWalk_gwrites app args [] i s) h).2 hb
    exact ⟨hall, boolTargetAfter_cases hall⟩
  · intro k slice hd hb
    have hcw : (parse app args).cwrites
        = (parseCommand (cmdAt app.cmds k) slice).1 := by
      rw [← (appWalk_dispatch app args [] k slice hd).2]
      rfl
    have hall : ∀ s, (i, s) ∈ (parse app args).cwrites → s = "true" := by
      intro s h
      rw [hcw] at h
      exact (cmdWalk_writes (cmdAt app.cmds k).opts slice [] i s h).2 hb
    exact ⟨hall, boolTargetAfter_cases hall⟩

/-- Witness for C10: the flag "-v" writes exactly "true", and the replayed
target value is true. -/
theorem c10_flag_targets_witness :
    (optAt flagApp.opts 0).isBool = true
    ∧ (∀ s, ((0 : Nat), s) ∈ (parse flagApp ["-v"]).gwrites → s = "true")
    ∧ (boolTargetAfter (parse flagApp ["-v"]).gwrites 0 false = false ∨
       boolTargetAfter (parse flagApp ["-v"]).gwrites 0 false = true) :=
  ⟨by decide, ((c10_flag_targets flagApp ["-v"] 0 false).1 (by decide)).1,
   ((c10_flag_targets flagApp ["-v"] 0 false).1 (by decide)).2⟩

end DOpt
